import Mathlib

/-!
Verification development for the web-bindraw collaborative 2D drawing
program.  The definitions below are a shallow embedding, over exact
rational arithmetic, of the parts of the source that the verified
properties talk about:

* the geometry kernel (`src/web/src/core/math/Vector.ts`, `AABB.ts`,
  `Matrix.ts`),
* the `Rect` shape (`src/web/src/core/shapes/Rect.ts`, `Shape.ts`),
* the quadtree spatial index (`QuadTree` in
  `src/web/src/core/SelectionManager.ts`),
* the scene container (`Scene` in `src/unnamed/part_009`),
* the command objects and the command manager
  (`src/web/src/core/commands/*`, `CommandManager` in
  `src/unnamed/part_011`),
* the client collaboration hook (`src/web/src/hooks/useCollaboration.ts`),
* the server relay (`src/server/src/services/WebSocketService.js`,
  `RoomService` in `src/unnamed/part_003`).

Conventions used throughout the embedding:

* TypeScript `number` is embedded as `ℚ`; every arithmetic operation the
  embedded code performs (add, multiply, divide by 2, compare) is exact
  on the rationals, so no floating-point behaviour is modelled away for
  the inputs the theorems use.
* `Matrix.rotate(angle)` in the source consumes the angle only through
  `Math.cos(angle)` and `Math.sin(angle)`; the embedding therefore
  represents a rotation by its cosine/sine pair (`rotCos`, `rotSin`),
  which is `(1, 0)` for the unrotated shapes the theorems use.
* object identity of `Shape` references (TypeScript `indexOf`,
  `includes`, `Map` keys) is embedded as equality of the shape's `id`
  field; ids are unique (`uuidv4`) in the source, and theorems that
  depend on this carry explicit `Nodup` hypotheses.
* mutation is embedded as explicit state passing: a method that mutates
  an object becomes a function returning the updated value.
* a TypeScript method that can `throw` is embedded with an `Option`
  result (`none` = exception).
-/

/-- Source `Vector` (class `Vector` in `core/math/Vector.ts`): an (x, y)
pair.  Named `Vec` because `Vector` already exists in Mathlib. -/
structure Vec where
  x : ℚ
  y : ℚ
deriving DecidableEq, Repr

/-- Source `AABB` (class in `core/math/AABB.ts`): axis-aligned bounding
box given by the four coordinates, with no non-degeneracy invariant. -/
structure AABB where
  minX : ℚ
  minY : ℚ
  maxX : ℚ
  maxY : ℚ
deriving DecidableEq, Repr

/-- Source `AABB.containsPoint`:
`point.x >= minX && point.x <= maxX && point.y >= minY && point.y <= maxY`. -/
def AABB.containsPoint (b : AABB) (p : Vec) : Bool :=
  decide (p.x ≥ b.minX) && decide (p.x ≤ b.maxX) &&
  decide (p.y ≥ b.minY) && decide (p.y ≤ b.maxY)

/-- Source `AABB.intersects`:
`minX <= o.maxX && maxX >= o.minX && minY <= o.maxY && maxY >= o.minY`. -/
def AABB.intersects (b o : AABB) : Bool :=
  decide (b.minX ≤ o.maxX) && decide (b.maxX ≥ o.minX) &&
  decide (b.minY ≤ o.maxY) && decide (b.maxY ≥ o.minY)

/-- Source `Matrix` (class in `core/math/Matrix.ts`): 2×3 affine matrix
`| a c e ; b d f |`.  Named `Matrix2D` because `Matrix` already exists
in Mathlib. -/
structure Matrix2D where
  a : ℚ
  b : ℚ
  c : ℚ
  d : ℚ
  e : ℚ
  f : ℚ
deriving DecidableEq, Repr

namespace Matrix2D

/-- Source `Matrix.identity()`. -/
def identity : Matrix2D := ⟨1, 0, 0, 1, 0, 0⟩

/-- Source static `Matrix.translate(tx, ty)`. -/
def translateM (tx ty : ℚ) : Matrix2D := ⟨1, 0, 0, 1, tx, ty⟩

/-- Source static `Matrix.scale(sx, sy)`. -/
def scaleM (sx sy : ℚ) : Matrix2D := ⟨sx, 0, 0, sy, 0, 0⟩

/-- Source static `Matrix.rotate(angle)`, which builds
`new Matrix(cos, sin, -sin, cos, 0, 0)` from `cos = Math.cos(angle)` and
`sin = Math.sin(angle)`; the embedding takes the cosine/sine pair
directly since that is all the source computes from the angle. -/
def rotateCS (cosv sinv : ℚ) : Matrix2D := ⟨cosv, sinv, -sinv, cosv, 0, 0⟩

/-- Source `Matrix.multiply(m)` (right-multiplication). -/
def multiply (t m : Matrix2D) : Matrix2D :=
  ⟨t.a * m.a + t.c * m.b,
   t.b * m.a + t.d * m.b,
   t.a * m.c + t.c * m.d,
   t.b * m.c + t.d * m.d,
   t.a * m.e + t.c * m.f + t.e,
   t.b * m.e + t.d * m.f + t.f⟩

/-- Source `Matrix.invert()`; the source throws when
`det = a*d - b*c` is zero, embedded as `none`. -/
def invert (t : Matrix2D) : Option Matrix2D :=
  let det := t.a * t.d - t.b * t.c
  if det = 0 then none
  else
    let invDet := 1 / det
    some ⟨t.d * invDet,
          -t.b * invDet,
          -t.c * invDet,
          t.a * invDet,
          (t.c * t.f - t.d * t.e) * invDet,
          (t.b * t.e - t.a * t.f) * invDet⟩

/-- Source `Matrix.transformPoint(point)`. -/
def transformPoint (t : Matrix2D) (p : Vec) : Vec :=
  ⟨t.a * p.x + t.c * p.y + t.e, t.b * p.x + t.d * p.y + t.f⟩

/-- Source instance method `translate(tx, ty)`:
`this.multiply(Matrix.translate(tx, ty))`. -/
def translate (t : Matrix2D) (tx ty : ℚ) : Matrix2D :=
  t.multiply (translateM tx ty)

/-- Source instance method `scale(sx, sy)`. -/
def scale (t : Matrix2D) (sx sy : ℚ) : Matrix2D :=
  t.multiply (scaleM sx sy)

/-- Source instance method `rotate(angle)`, cosine/sine form. -/
def rotate (t : Matrix2D) (cosv sinv : ℚ) : Matrix2D :=
  t.multiply (rotateCS cosv sinv)

end Matrix2D

/-- Source `Rect` (class in `core/shapes/Rect.ts` extending `Shape` from
`core/shapes/Shape.ts`).  The fields are the `Shape` base fields used by
the verified code paths plus the `Rect` fields `width`/`height`; the
rotation angle is carried as its cosine/sine pair (see the module
comment).  The shapes held by `Scene` in the verified code paths are
top-level, so `parent` is `null` and is not carried. -/
structure Rect where
  id : String
  x : ℚ
  y : ℚ
  rotCos : ℚ := 1
  rotSin : ℚ := 0
  scaleX : ℚ := 1
  scaleY : ℚ := 1
  width : ℚ
  height : ℚ
  visible : Bool := true
  locked : Bool := false
  zIndex : ℚ := 0
deriving DecidableEq, Repr

namespace Rect

/-- Source `Shape.getLocalMatrix()`:
`Matrix.identity().translate(x, y).rotate(rotation).scale(scaleX, scaleY)`. -/
def getLocalMatrix (s : Rect) : Matrix2D :=
  (((Matrix2D.identity.translate s.x s.y).rotate s.rotCos s.rotSin).scale
    s.scaleX s.scaleY)

/-- Source `Shape.getWorldMatrix()`; for a top-level shape
(`parent === null`) this is the local matrix. -/
def getWorldMatrix (s : Rect) : Matrix2D := s.getLocalMatrix

/-- Source `Shape.worldToLocal(point)` =
`getWorldMatrix().invert().transformPoint(point)`; `none` when the world
matrix is singular (the source throws). -/
def worldToLocal (s : Rect) (p : Vec) : Option Vec :=
  (s.getWorldMatrix.invert).map (·.transformPoint p)

/-- Source `Rect.hitTest(worldPoint)`: convert to local space and test
`-w/2 ≤ x ≤ w/2 ∧ -h/2 ≤ y ≤ h/2`; `none` when the conversion throws. -/
def hitTest (s : Rect) (p : Vec) : Option Bool :=
  (s.worldToLocal p).map fun lp =>
    decide (lp.x ≥ -(s.width / 2)) && decide (lp.x ≤ s.width / 2) &&
    decide (lp.y ≥ -(s.height / 2)) && decide (lp.y ≤ s.height / 2)

/-- Source `Rect.getBoundingBox()`: the local-space box
`new AABB(-halfW, -halfH, halfW, halfH)` — it does not involve the
shape's position `x`, `y`. -/
def getBoundingBox (s : Rect) : AABB :=
  ⟨-(s.width / 2), -(s.height / 2), s.width / 2, s.height / 2⟩

end Rect

/-- Source `QuadTreeNode` (class in `core/SelectionManager.ts`): bounds,
stored shapes, optional four children (top-left, top-right, bottom-left,
bottom-right), capacity, max depth and current depth. -/
inductive QTNode : Type where
  | mk (bounds : AABB) (shapes : List Rect)
       (children : Option (QTNode × QTNode × QTNode × QTNode))
       (capacity maxDepth depth : Nat) : QTNode

/-- Bounds accessor for `QTNode`. -/
def QTNode.bounds : QTNode → AABB
  | .mk b _ _ _ _ _ => b

/-- Stored-shapes accessor for `QTNode`. -/
def QTNode.storedShapes : QTNode → List Rect
  | .mk _ sh _ _ _ _ => sh

/-- Children accessor for `QTNode`. -/
def QTNode.childNodes : QTNode → Option (QTNode × QTNode × QTNode × QTNode)
  | .mk _ _ cs _ _ _ => cs

/-- Source `QuadTreeNode.insert(shape)`, returning the updated node and
the boolean result.  The `fuel` argument is a technical bound on the
recursion depth that the source does not carry: the source recursion
terminates because each descent into a child increases `depth` toward
`maxDepth`; every recursive call here consumes one unit of fuel, and the
wrapper supplies more fuel than the source can ever consume
(`2 * maxDepth + 4`), so the fuel-exhausted branch is unreachable for
the wrapper's calls.  The `subdivide()` call of the source is inlined:
on first overflow the node gains four quadrant children and its stored
shapes are re-inserted through `insert` on the now-subdivided node,
exactly as `subdivide` does via `this.insert(shape)`. -/
def QTNode.insert : Nat → QTNode → Rect → QTNode × Bool
  | 0, n, _ => (n, true)
  | fuel + 1, .mk bounds shapes children cap maxD depth, s =>
    if ¬ (bounds.intersects s.getBoundingBox) then
      (.mk bounds shapes children cap maxD depth, false)
    else if shapes.length < cap ∧ children.isNone then
      (.mk bounds (shapes ++ [s]) children cap maxD depth, true)
    else if depth ≥ maxD then
      (.mk bounds (shapes ++ [s]) children cap maxD depth, true)
    else
      let n1 : QTNode :=
        match children with
        | some cs => .mk bounds shapes (some cs) cap maxD depth
        | none =>
          let midX := (bounds.minX + bounds.maxX) / 2
          let midY := (bounds.minY + bounds.maxY) / 2
          let tl : QTNode :=
            .mk ⟨bounds.minX, bounds.minY, midX, midY⟩ [] none cap maxD (depth + 1)
          let tr : QTNode :=
            .mk ⟨midX, bounds.minY, bounds.maxX, midY⟩ [] none cap maxD (depth + 1)
          let bl : QTNode :=
            .mk ⟨bounds.minX, midY, midX, bounds.maxY⟩ [] none cap maxD (depth + 1)
          let br : QTNode :=
            .mk ⟨midX, midY, bounds.maxX, bounds.maxY⟩ [] none cap maxD (depth + 1)
          let base : QTNode := .mk bounds [] (some (tl, tr, bl, br)) cap maxD depth
          shapes.foldl (fun acc sh => (QTNode.insert fuel acc sh).1) base
      match n1 with
      | .mk b1 sh1 (some (c0, c1, c2, c3)) _ _ _ =>
        let r0 := QTNode.insert fuel c0 s
        let r1 := QTNode.insert fuel c1 s
        let r2 := QTNode.insert fuel c2 s
        let r3 := QTNode.insert fuel c3 s
        let inserted := r0.2 || r1.2 || r2.2 || r3.2
        if inserted then
          (.mk b1 sh1 (some (r0.1, r1.1, r2.1, r3.1)) cap maxD depth, true)
        else
          (.mk b1 (sh1 ++ [s]) (some (r0.1, r1.1, r2.1, r3.1)) cap maxD depth, true)
      | other => (other, false)

/-- Source `QuadTreeNode.queryPoint(point, result)`: prune when the node
bounds do not contain the point, collect stored shapes whose
`getBoundingBox().containsPoint(point)` holds, then recurse into the
children in order. -/
def QTNode.queryPoint (p : Vec) : QTNode → List Rect → List Rect
  | .mk bounds shapes children _ _ _, result =>
    if ¬ (bounds.containsPoint p) then result
    else
      let result := shapes.foldl
        (fun acc sh => if sh.getBoundingBox.containsPoint p then acc ++ [sh] else acc)
        result
      match children with
      | some (c0, c1, c2, c3) =>
        QTNode.queryPoint p c3
          (QTNode.queryPoint p c2 (QTNode.queryPoint p c1 (QTNode.queryPoint p c0 result)))
      | none => result

/-- Source `QuadTreeNode.clear()`: empty the shape list and drop the
children (the recursive child clears are subsumed by dropping them). -/
def QTNode.clearNode : QTNode → QTNode
  | .mk b _ _ cap maxD depth => .mk b [] none cap maxD depth

/-- Source `QuadTree` (class in `core/SelectionManager.ts`): the root
node plus the capacity and max-depth parameters. -/
structure QuadTree where
  root : QTNode
  capacity : Nat
  maxDepth : Nat

namespace QuadTree

/-- Source `new QuadTree(bounds, capacity = 4, maxDepth = 8)`. -/
def create (bounds : AABB) (capacity : Nat := 4) (maxDepth : Nat := 8) : QuadTree :=
  ⟨.mk bounds [] none capacity maxDepth 0, capacity, maxDepth⟩

/-- Fuel supplied to `QTNode.insert`; strictly larger than the source's
maximal recursion depth (one subdivision plus one descent per level). -/
def insertFuel (qt : QuadTree) : Nat := 2 * qt.maxDepth + 4

/-- Source `QuadTree.insert(shape)` (result boolean dropped as no caller
uses it). -/
def insert (qt : QuadTree) (s : Rect) : QuadTree :=
  { qt with root := (QTNode.insert qt.insertFuel qt.root s).1 }

/-- Source `QuadTree.insertAll(shapes)`. -/
def insertAll (qt : QuadTree) (shapes : List Rect) : QuadTree :=
  shapes.foldl insert qt

/-- Source `QuadTree.clear()`. -/
def clear (qt : QuadTree) : QuadTree :=
  { qt with root := qt.root.clearNode }

/-- Source `QuadTree.rebuild(shapes)`: `clear(); insertAll(shapes)`. -/
def rebuild (qt : QuadTree) (shapes : List Rect) : QuadTree :=
  (qt.clear).insertAll shapes

/-- Source `QuadTree.queryPoint(point)`: `root.queryPoint(point, [])`. -/
def queryPoint (qt : QuadTree) (p : Vec) : List Rect :=
  QTNode.queryPoint p qt.root []

end QuadTree

/-- Stable insertion of a shape into a z-index-sorted list, placing the
new element before the first strictly larger key; used to embed the
stable `Array.prototype.sort((a, b) => a.zIndex - b.zIndex)` of
`Scene.sort()` (`src/unnamed/part_009`). -/
def insertZ (s : Rect) : List Rect → List Rect
  | [] => [s]
  | t :: ts => if s.zIndex ≤ t.zIndex then s :: t :: ts else t :: insertZ s ts

/-- Stable sort by `zIndex`, embedding `Scene.sort()`; JavaScript's
`Array.prototype.sort` is specified to be stable, and any stable sort by
the comparator `(a, b) => a.zIndex - b.zIndex` computes this function. -/
def sortByZ : List Rect → List Rect
  | [] => []
  | s :: ss => insertZ s (sortByZ ss)

/-- Source `Scene` (class in `src/unnamed/part_009`): the shape list,
the `autoSort` and `useQuadTree` options, the optional quadtree and the
`quadTreeDirty` flag.  Change callbacks are pure notifications and carry
no state, so they are not modelled. -/
structure Scene where
  shapes : List Rect
  autoSort : Bool
  useQuadTree : Bool
  quadTree : Option QuadTree
  quadTreeDirty : Bool

namespace Scene

/-- Default quadtree bounds `new AABB(-10000, -10000, 10000, 10000)`. -/
def defaultQuadTreeBounds : AABB := ⟨-10000, -10000, 10000, 10000⟩

/-- Source `new Scene(options)`: `autoSort ?? true`,
`useQuadTree ?? false`, quadtree constructed over the given or default
bounds when enabled, and `quadTreeDirty` initialized `true`. -/
def create (autoSort : Bool := true) (useQuadTree : Bool := false)
    (quadTreeBounds : Option AABB := none) : Scene :=
  { shapes := []
    autoSort := autoSort
    useQuadTree := useQuadTree
    quadTree :=
      if useQuadTree then
        some (QuadTree.create (quadTreeBounds.getD defaultQuadTreeBounds))
      else none
    quadTreeDirty := true }

/-- Source `Scene.sort()`: resort `shapes` by `zIndex` (stable). -/
def sortScene (s : Scene) : Scene :=
  { s with shapes := sortByZ s.shapes }

/-- Source `Scene.add(shape)`: push, sort when `autoSort`, and set
`quadTreeDirty = true`. -/
def add (s : Scene) (sh : Rect) : Scene :=
  let s1 := { s with shapes := s.shapes ++ [sh] }
  let s2 := if s1.autoSort then s1.sortScene else s1
  { s2 with quadTreeDirty := true }

/-- Source `Scene.addMany(shapes)`: push all and sort when `autoSort`.
Unlike `add`, the source does not touch `quadTreeDirty` here. -/
def addMany (s : Scene) (shs : List Rect) : Scene :=
  let s1 := { s with shapes := s.shapes ++ shs }
  if s1.autoSort then s1.sortScene else s1

/-- Removal of the first list entry with the given id; embeds
`shapes.indexOf(shape)` followed by `splice(index, 1)` (reference
equality embedded as id equality). -/
def removeFirstById (i : String) : List Rect → List Rect
  | [] => []
  | t :: ts => if t.id = i then ts else t :: removeFirstById i ts

/-- Source `Scene.remove(shape)`: when present, splice it out, set
`quadTreeDirty = true` and return `true`; otherwise return `false`. -/
def remove (s : Scene) (sh : Rect) : Scene × Bool :=
  if s.shapes.any (·.id = sh.id) then
    ({ s with shapes := removeFirstById sh.id s.shapes, quadTreeDirty := true }, true)
  else (s, false)

/-- Source `Scene.removeMany(shapes)`: splice each present shape out.
Unlike `remove`, the source does not touch `quadTreeDirty` here. -/
def removeMany (s : Scene) (shs : List Rect) : Scene :=
  { s with shapes := shs.foldl (fun acc sh => removeFirstById sh.id acc) s.shapes }

/-- Source `Scene.findById(id)`. -/
def findById (s : Scene) (i : String) : Option Rect :=
  s.shapes.find? (·.id = i)

/-- Source `Scene.rebuildQuadTreeIfNeeded()`: rebuild the quadtree from
the current shape list and clear the dirty flag, when a tree exists and
the flag is set. -/
def rebuildQuadTreeIfNeeded (s : Scene) : Scene :=
  match s.quadTree with
  | none => s
  | some qt =>
    if s.quadTreeDirty then
      { s with quadTree := some (qt.rebuild s.shapes), quadTreeDirty := false }
    else s

end Scene

/-- Source command objects (`core/commands/AddShapeCommand.ts`,
`RemoveShapeCommand` in `core/commands/Command.ts`,
`core/commands/MoveShapeCommand.ts`).  `AddShapeCommand` stores the
shape, `RemoveShapeCommand` stores `shapesToRemove`, and
`MoveShapeCommand` stores the shape references (as ids), the deltas
`dx`/`dy` and the constructor-time `oldPositions` snapshot.  The `scene`
reference the commands hold is supplied to `execute`/`undo` as an
argument. -/
inductive Cmd : Type where
  | addShape (shape : Rect)
  | removeShape (shapesToRemove : List Rect)
  | moveShape (shapes : List String) (dx dy : ℚ)
      (oldPositions : List (String × ℚ × ℚ))
deriving DecidableEq, Repr

namespace Cmd

/-- Source `new MoveShapeCommand(shapes, dx, dy)`: records the shapes,
the deltas and each shape's current position in `oldPositions`. -/
def mkMoveShapeCommand (shapes : List Rect) (dx dy : ℚ) : Cmd :=
  .moveShape (shapes.map (·.id)) dx dy (shapes.map fun sh => (sh.id, sh.x, sh.y))

/-- Source `Command.execute()` of each concrete command:
`AddShapeCommand` runs `scene.add(shape)`, `RemoveShapeCommand` runs
`scene.removeMany(shapesToRemove)`, and `MoveShapeCommand` adds the
deltas to each referenced shape's position. -/
def exec (c : Cmd) (scene : Scene) : Scene :=
  match c with
  | .addShape sh => scene.add sh
  | .removeShape shs => scene.removeMany shs
  | .moveShape ids dx dy _ =>
    { scene with
      shapes := scene.shapes.map fun sh =>
        if sh.id ∈ ids then { sh with x := sh.x + dx, y := sh.y + dy } else sh }

/-- Source `Command.undo()` of each concrete command: `AddShapeCommand`
runs `scene.remove(shape)`, `RemoveShapeCommand` runs
`scene.addMany(shapesToRemove)`, and `MoveShapeCommand` restores each
referenced shape's position from `oldPositions`. -/
def undoCmd (c : Cmd) (scene : Scene) : Scene :=
  match c with
  | .addShape sh => (scene.remove sh).1
  | .removeShape shs => scene.addMany shs
  | .moveShape _ _ _ oldPositions =>
    { scene with
      shapes := scene.shapes.map fun sh =>
        match oldPositions.find? (·.1 = sh.id) with
        | some (_, ox, oy) => { sh with x := ox, y := oy }
        | none => sh }

/-- Source `Command.canMerge(other)`: the base class returns `false`;
`MoveShapeCommand` overrides it with
`other instanceof MoveShapeCommand && other.shapes.length === this.shapes.length
&& other.shapes.every(s => this.shapes.includes(s))`.  Mirroring
`CommandManager.execute`, the receiver `this` is the incoming command
`c` and the argument `other` is the stack-top command. -/
def canMerge (c other : Cmd) : Bool :=
  match c, other with
  | .moveShape ids _ _ _, .moveShape oids _ _ _ =>
    decide (oids.length = ids.length) && oids.all (fun i => ids.contains i)
  | _, _ => false

/-- Source `MoveShapeCommand.merge(other)`: `this.dx += other.dx;
this.dy += other.dy` — the receiver `this` is the stack-top command and
`other` is the incoming one, so the top's snapshot is kept.  Non-move
commands throw in the source and are never merged by the manager
(`canMerge` is false); the embedding returns the receiver unchanged in
that unreachable case. -/
def merge (c other : Cmd) : Cmd :=
  match c, other with
  | .moveShape ids dx dy oldPositions, .moveShape _ odx ody _ =>
    .moveShape ids (dx + odx) (dy + ody) oldPositions
  | _, _ => c

end Cmd

/-- Source `CommandManager` (class in `src/unnamed/part_011`): the undo
and redo stacks (oldest entry first; `push` appends, `shift` drops the
head) and the `maxHistory` bound. -/
structure CommandManager where
  undoStack : List Cmd
  redoStack : List Cmd
  maxHistory : Nat
deriving DecidableEq, Repr

namespace CommandManager

/-- Source `new CommandManager(options)`:
`maxHistory = options.maxHistory ?? 100`, empty stacks. -/
def create (maxHistory : Option Nat := none) : CommandManager :=
  ⟨[], [], maxHistory.getD 100⟩

/-- Source `CommandManager.execute(command)`: run the command, merge
into the stack top when `command.canMerge(lastCommand)` holds, otherwise
push and evict the oldest entry past `maxHistory`; finally clear the
redo stack. -/
def execute (m : CommandManager) (scene : Scene) (c : Cmd) :
    CommandManager × Scene :=
  let scene1 := c.exec scene
  let undo1 :=
    match m.undoStack.getLast? with
    | some lastCommand =>
      if c.canMerge lastCommand then
        m.undoStack.dropLast ++ [lastCommand.merge c]
      else
        let pushed := m.undoStack ++ [c]
        if pushed.length > m.maxHistory then pushed.drop 1 else pushed
    | none =>
      let pushed := m.undoStack ++ [c]
      if pushed.length > m.maxHistory then pushed.drop 1 else pushed
  ({ m with undoStack := undo1, redoStack := [] }, scene1)

/-- Source `CommandManager.undo()`: pop the undo stack (no-op when
empty), run the command's `undo` and push it on the redo stack. -/
def undo (m : CommandManager) (scene : Scene) : CommandManager × Scene :=
  match m.undoStack.getLast? with
  | none => (m, scene)
  | some c =>
    ({ m with undoStack := m.undoStack.dropLast, redoStack := m.redoStack ++ [c] },
     c.undoCmd scene)

/-- Source `CommandManager.canUndo()`. -/
def canUndo (m : CommandManager) : Bool := decide (m.undoStack.length > 0)

/-- Source `CommandManager.canRedo()`. -/
def canRedo (m : CommandManager) : Bool := decide (m.redoStack.length > 0)

end CommandManager

/-- Serialized shape payload, mirroring `Rect.toJSON()` in
`core/shapes/Rect.ts` (the `name` and `style` fields carry no behaviour
in the verified code paths and are not modelled; the `rotation` field is
carried as its cosine/sine pair as in `Rect`). -/
structure ShapeJSON where
  type : String
  id : String
  x : ℚ
  y : ℚ
  width : ℚ
  height : ℚ
  rotCos : ℚ := 1
  rotSin : ℚ := 0
  scaleX : ℚ := 1
  scaleY : ℚ := 1
  visible : Bool := true
  locked : Bool := false
  zIndex : ℚ := 0
deriving DecidableEq, Repr

/-- Source `Rect.toJSON()`. -/
def Rect.toJSON (r : Rect) : ShapeJSON :=
  { type := "Rect", id := r.id, x := r.x, y := r.y, width := r.width,
    height := r.height, rotCos := r.rotCos, rotSin := r.rotSin,
    scaleX := r.scaleX, scaleY := r.scaleY, visible := r.visible,
    locked := r.locked, zIndex := r.zIndex }

/-- Source `createShapeFromJSON` (`src/unnamed/part_008`) composed with
`Rect.fromJSON`: dispatch on the `type` tag; unknown tags throw
(`none`).  The claims under verification only exercise the `Rect`
variant, so the other shape constructors are not modelled.  Note that
`Rect.fromJSON` does not read `visible`/`locked`/`zIndex` from the
payload (the `RectOptions` it builds omits them), so those fields reset
to their constructor defaults. -/
def createShapeFromJSON (j : ShapeJSON) : Option Rect :=
  if j.type = "Rect" then
    some { id := j.id, x := j.x, y := j.y, width := j.width,
           height := j.height, rotCos := j.rotCos, rotSin := j.rotSin,
           scaleX := j.scaleX, scaleY := j.scaleY }
  else none

/-- Wire command payload `data.operation.command`, mirroring the plain
JavaScript object the client builds: a `type` string plus whichever of
the optional fields the writer set (`none` = the JS property is absent /
`undefined`). -/
structure WireCmd where
  type : String
  shape : Option ShapeJSON := none
  shapeId : Option String := none
  shapeIds : Option (List String) := none
  delta : Option (ℚ × ℚ) := none
deriving DecidableEq, Repr

/-- Source command serializer inside `setupLocalChangeListener`
(`src/web/src/hooks/useCollaboration.ts`): starts from
`{type: command.constructor.name}` and specializes per constructor.

* `AddShapeCommand`: the guard `command.shape` holds (the class stores
  `shape`), so the payload is `{type: 'add-shape', shape: toJSON()}`.
* `RemoveShapeCommand`: the guard reads `command.shapes`, but the class
  stores the list under `shapesToRemove`, so `command.shapes` is
  `undefined`, the guard fails, and the default payload
  `{type: 'RemoveShapeCommand'}` is sent.
* `MoveShapeCommand`: the branch has no field guard and reads
  `command.shape?.id` and `command.delta`; the class stores `shapes`,
  `dx` and `dy`, so both reads yield `undefined` and the payload is
  `{type: 'move-shape', shapeId: undefined, delta: undefined}`. -/
def extractCommandData : Cmd → WireCmd
  | .addShape sh => { type := "add-shape", shape := some sh.toJSON }
  | .removeShape _ => { type := "RemoveShapeCommand" }
  | .moveShape _ _ _ _ => { type := "move-shape", shapeId := none, delta := none }

/-- Replacement of the first list entry with the given id, embedding
`scene.findById(id)` followed by mutation of the returned object. -/
def updateFirstById (i : String) (f : Rect → Rect) : List Rect → List Rect
  | [] => []
  | t :: ts => if t.id = i then f t :: ts else t :: updateFirstById i f ts

/-- Source `handleRemoteCommand` (`useCollaboration.ts`) applied to the
received `data.operation.command`: switch on `cmd.type` with cases
`add-shape` (factory + `scene.add`), `remove-shape`/`delete-shape`
(`findById` + `scene.remove`, from the `shapeIds` list or the single
`shapeId`), and `move-shape` (guarded by `cmd.shapeId && cmd.delta`,
then `shape.x += delta.x; shape.y += delta.y`); any other type falls
through the switch and changes nothing. -/
def handleRemoteCommand (scene : Scene) (cmd : WireCmd) : Scene :=
  if cmd.type = "add-shape" then
    match cmd.shape with
    | some j =>
      match createShapeFromJSON j with
      | some sh => scene.add sh
      | none => scene
    | none => scene
  else if cmd.type = "remove-shape" ∨ cmd.type = "delete-shape" then
    match cmd.shapeIds with
    | some ids =>
      ids.foldl
        (fun sc i =>
          match sc.findById i with
          | some sh => (sc.remove sh).1
          | none => sc)
        scene
    | none =>
      match cmd.shapeId with
      | some i =>
        match scene.findById i with
        | some sh => (scene.remove sh).1
        | none => scene
      | none => scene
  else if cmd.type = "move-shape" then
    match cmd.shapeId, cmd.delta with
    | some i, some (dx, dy) =>
      { scene with
        shapes := updateFirstById i
          (fun sh => { sh with x := sh.x + dx, y := sh.y + dy }) scene.shapes }
    | _, _ => scene
  else scene

/-- User payload carried by a `join` message (`data: {name, color}`). -/
structure UserData where
  name : String
  color : String
deriving DecidableEq, Repr

/-- Persisted room user entry (`users` array of the Mongoose room
schema); the `joinedAt` timestamp carries no behaviour in the verified
code paths and is not modelled. -/
structure RoomUser where
  userId : String
  name : String
  color : String
deriving DecidableEq, Repr

/-- Value stored in a persisted shape entry's `data` field (Mongoose
`Mixed`): `add-shape` stores the shape JSON, while
`RoomService.updateShape` stores the whole wire command object. -/
inductive ShapeData : Type where
  | shapeJson (s : ShapeJSON)
  | wireCmd (c : WireCmd)
deriving DecidableEq, Repr

/-- Persisted shape entry `{id, type, data}` of the room schema. -/
structure ShapeEntry where
  id : String
  stype : String
  data : ShapeData
deriving DecidableEq, Repr

/-- Persisted room record (`src/server/src/models/Room.js`): roomId,
name (default `'Untitled Room'`), shape list, user list and version
(default 0); `createdAt`/`updatedAt` timestamps are not modelled. -/
structure RoomRecord where
  roomId : String
  name : String := "Untitled Room"
  shapes : List ShapeEntry := []
  users : List RoomUser := []
  version : Nat := 0
deriving DecidableEq, Repr

/-- Persisted database state handled by `RoomService`
(`src/unnamed/part_003`): the room collection and the append-only
operation log. -/
structure ServerDb where
  rooms : List RoomRecord
  ops : List (String × String × String × WireCmd)
deriving DecidableEq, Repr

namespace ServerDb

/-- Source `Room.findOne({roomId})`. -/
def findRoom (db : ServerDb) (roomId : String) : Option RoomRecord :=
  db.rooms.find? (·.roomId = roomId)

/-- Update of the room matching `roomId`, appending a fresh record
built by `mk` when absent (`upsert: true`). -/
def upsertRoom (db : ServerDb) (roomId : String) (f : RoomRecord → RoomRecord) :
    ServerDb :=
  if db.rooms.any (·.roomId = roomId) then
    { db with rooms := db.rooms.map fun r => if r.roomId = roomId then f r else r }
  else
    { db with rooms := db.rooms ++ [f { roomId := roomId }] }

/-- Update of the room matching `roomId`, a no-op when absent (the
source calls without `upsert`). -/
def updateRoomIfPresent (db : ServerDb) (roomId : String)
    (f : RoomRecord → RoomRecord) : ServerDb :=
  { db with rooms := db.rooms.map fun r => if r.roomId = roomId then f r else r }

/-- Source `RoomService.getRoom(roomId)`: find, creating (and storing) a
fresh room when absent. -/
def getRoom (db : ServerDb) (roomId : String) : RoomRecord × ServerDb :=
  match db.findRoom roomId with
  | some r => (r, db)
  | none =>
    let fresh : RoomRecord := { roomId := roomId }
    (fresh, { db with rooms := db.rooms ++ [fresh] })

/-- Source `RoomService.addUser(roomId, user)`: `$addToSet` on `users`
(append unless an equal entry exists), upserting the room; the version
counter is not incremented here. -/
def addUser (db : ServerDb) (roomId : String) (u : RoomUser) : ServerDb :=
  db.upsertRoom roomId fun r =>
    { r with users := if r.users.contains u then r.users else r.users ++ [u] }

/-- Source `RoomService.addShape(roomId, shapeData)`: `$push` on
`shapes` and `$inc` on `version`, upserting the room. -/
def addShape (db : ServerDb) (roomId : String) (e : ShapeEntry) : ServerDb :=
  db.upsertRoom roomId fun r =>
    { r with shapes := r.shapes ++ [e], version := r.version + 1 }

/-- Source `RoomService.deleteShape(roomId, shapeId)`: `$pull` on
`shapes` by id and `$inc` on `version` (no upsert).  A `shapeId` of
`undefined` (`none`) matches no entry, so only the version bumps. -/
def deleteShape (db : ServerDb) (roomId : String) (shapeId : Option String) :
    ServerDb :=
  db.updateRoomIfPresent roomId fun r =>
    { r with shapes := r.shapes.filter (fun e => ¬ shapeId = some e.id),
             version := r.version + 1 }

/-- Source `RoomService.updateShape(roomId, shapeId, updates)`: the
positional `$set 'shapes.$.data'` stores the updates object into the
first matching entry's `data` and bumps the version; the filter
`{roomId, 'shapes.id': shapeId}` matches nothing when `shapeId` is
`undefined` or absent, leaving the record untouched. -/
def updateShape (db : ServerDb) (roomId : String) (shapeId : Option String)
    (updates : WireCmd) : ServerDb :=
  match shapeId with
  | none => db
  | some i =>
    { db with rooms := db.rooms.map fun r =>
        if r.roomId = roomId ∧ r.shapes.any (·.id = i) then
          { r with
            shapes := updateFirstEntry i (ShapeData.wireCmd updates) r.shapes,
            version := r.version + 1 }
        else r }
where
  /-- Replacement of the first entry's `data` (positional `$` update). -/
  updateFirstEntry (i : String) (d : ShapeData) : List ShapeEntry → List ShapeEntry
    | [] => []
    | e :: es => if e.id = i then { e with data := d } :: es
                 else e :: updateFirstEntry i d es

/-- Source `RoomService.saveOperation(roomId, userId, type, data)`. -/
def saveOperation (db : ServerDb) (roomId userId ty : String) (data : WireCmd) :
    ServerDb :=
  { db with ops := db.ops ++ [(roomId, userId, ty, data)] }

end ServerDb

/-- Per-connection record held by `WebSocketService.clients`
(`ws -> {userId, roomId, user}`). -/
structure ClientInfo where
  userId : String
  roomId : String
  user : UserData
deriving DecidableEq, Repr

/-- In-memory state of `WebSocketService`
(`src/server/src/services/WebSocketService.js`): the `clients` map
(connections identified by numbers), the `rooms` map
(`roomId -> set of connections`) and the persisted database.  All
connections are modelled live (`readyState === 1`). -/
structure WSState where
  clients : List (Nat × ClientInfo)
  rooms : List (String × List Nat)
  db : ServerDb
deriving DecidableEq, Repr

/-- Messages the server sends, carrying the payload fields the verified
properties talk about (timestamps are not modelled).

* `initSync users shapes version` models
  `{type:'init_sync', data:{users, canvas:{shapes, version}}}`;
* `joinBroadcast userId data` models `{type:'join', userId, data}`;
* `commandMsg userId data` models `{type:'command', userId, data}` with
  `data.operation.command` flattened to the wire command. -/
inductive ServerMsg : Type where
  | initSync (users : List UserData) (shapes : List ShapeEntry) (version : Nat)
  | joinBroadcast (userId : String) (data : UserData)
  | commandMsg (userId : String) (data : WireCmd)
deriving DecidableEq, Repr

namespace WSState

/-- Source `this.clients.set(ws, info)`. -/
def setClient (cs : List (Nat × ClientInfo)) (ws : Nat) (info : ClientInfo) :
    List (Nat × ClientInfo) :=
  if cs.any (·.1 = ws) then
    cs.map fun p => if p.1 = ws then (ws, info) else p
  else cs ++ [(ws, info)]

/-- Source `this.clients.get(ws)`. -/
def getClient (st : WSState) (ws : Nat) : Option ClientInfo :=
  (st.clients.find? (·.1 = ws)).map (·.2)

/-- Connection set of a room (`this.rooms.get(roomId)`, empty when the
room has no entry). -/
def roomConns (st : WSState) (roomId : String) : List Nat :=
  ((st.rooms.find? (·.1 = roomId)).map (·.2)).getD []

/-- Source `this.rooms.get(roomId).add(ws)` with creation of the room
set when missing. -/
def addConn (rs : List (String × List Nat)) (roomId : String) (ws : Nat) :
    List (String × List Nat) :=
  if rs.any (·.1 = roomId) then
    rs.map fun p =>
      if p.1 = roomId then
        (p.1, if p.2.contains ws then p.2 else p.2 ++ [ws])
      else p
  else rs ++ [(roomId, [ws])]

/-- Source `WebSocketService.handleJoin(ws, roomId, userId, userData)`:
record the client, add it to the room's connection set, persist the user
(`RoomService.addUser`), fetch the room (`RoomService.getRoom`), send
`init_sync` (with the other live users and the persisted shape snapshot)
to the joining connection only, then broadcast the `join` message to the
room excluding the joiner.  Returns the new state together with the
ordered send list. -/
def handleJoin (st : WSState) (ws : Nat) (roomId userId : String)
    (userData : UserData) : WSState × List (Nat × ServerMsg) :=
  let clients1 := setClient st.clients ws ⟨userId, roomId, userData⟩
  let rooms1 := addConn st.rooms roomId ws
  let db1 := st.db.addUser roomId ⟨userId, userData.name, userData.color⟩
  let (room, db2) := db1.getRoom roomId
  let st1 : WSState := ⟨clients1, rooms1, db2⟩
  let conns := st1.roomConns roomId
  let others := conns.filter (· ≠ ws)
  let users := others.filterMap fun c => (st1.getClient c).map (·.user)
  ((st1),
    (ws, ServerMsg.initSync users room.shapes room.version)
      :: others.map fun c => (c, ServerMsg.joinBroadcast userId userData))

/-- Persistence phase of `WebSocketService.handleCommand`: the body of
the `try` block (`RoomService.addShape`/`deleteShape`/`updateShape`
selected on `cmd.type`, then `RoomService.saveOperation`). -/
def persistCommand (db : ServerDb) (roomId userId : String) (cmd : WireCmd) :
    ServerDb :=
  let db1 :=
    if cmd.type = "add-shape" then
      match cmd.shape with
      | some sh => db.addShape roomId ⟨sh.id, sh.type, ShapeData.shapeJson sh⟩
      | none => db
    else if cmd.type = "delete-shape" ∨ cmd.type = "remove-shape" then
      db.deleteShape roomId cmd.shapeId
    else if cmd.type = "update-shape" ∨ cmd.type = "move-shape" ∨
            cmd.type = "resize-shape" ∨ cmd.type = "rotate-shape" then
      db.updateShape roomId cmd.shapeId cmd
    else db
  db1.saveOperation roomId userId cmd.type cmd

/-- Source `WebSocketService.handleCommand(ws, roomId, userId,
commandData)`.  The database calls can reject (the `try`/`catch`); the
`dbFail` argument is the oracle for that external failure: when `true`
every database write of this call throws, the `catch` branch logs the
error (returned boolean) and leaves the persisted state untouched.  In
either case the command envelope is then broadcast to every connection
of the room with no exclusion (`this.broadcast(roomId, …)` with
`excludeWs` defaulted to `null`). -/
def handleCommand (st : WSState) (dbFail : Bool) (roomId userId : String)
    (cmd? : Option WireCmd) : WSState × List (Nat × ServerMsg) × Bool :=
  match cmd? with
  | none => (st, [], false)
  | some cmd =>
    let (db1, logged) :=
      if dbFail then (st.db, true)
      else (persistCommand st.db roomId userId cmd, false)
    let sends := (st.roomConns roomId).map fun c =>
      (c, ServerMsg.commandMsg userId cmd)
    ({ st with db := db1 }, sends, logged)

end WSState

/-- Concrete 100×100 axis-aligned rectangle (rotation 0, scale 1) used
by the concrete evaluation theorems. -/
def sampleRect (i : String) (px py : ℚ) : Rect :=
  { id := i, x := px, y := py, width := 100, height := 100 }

/-- Scenario of the merged-drag property: starting from scene `s0` with
an empty history, the select tool issues two successive
`MoveShapeCommand`s on the same selection through
`CommandManager.execute`; as in the source, the second command is
constructed from the selected shape objects as they stand after the
first move (positions shifted by the first delta). -/
def twoMoves (s0 : Scene) (sel : List Rect) (d1x d1y d2x d2y : ℚ) :
    CommandManager × Scene :=
  let step1 := CommandManager.create.execute s0 (Cmd.mkMoveShapeCommand sel d1x d1y)
  step1.1.execute step1.2
    (Cmd.mkMoveShapeCommand
      (sel.map fun r => { r with x := r.x + d1x, y := r.y + d1y }) d2x d2y)

/-- Concrete persisted room record used by the server theorems' witness:
room `room1` holding two shape entries at version 5. -/
def sampleRoomRecord : RoomRecord :=
  ⟨"room1", "Untitled Room",
    [⟨"s1", "Rect", ShapeData.wireCmd ⟨"add-shape", none, none, none, none⟩⟩,
     ⟨"s2", "Rect", ShapeData.wireCmd ⟨"add-shape", none, none, none, none⟩⟩],
    [], 5⟩

/-- Concrete server state used by the server theorems' witness:
connection 1 (user `u1`) is live in `room1`, whose persisted record is
`sampleRoomRecord`. -/
def sampleWSState : WSState :=
  ⟨[(1, ⟨"u1", "room1", ⟨"Alice", "#0f0"⟩⟩)], [("room1", [1])],
    ⟨[sampleRoomRecord], []⟩⟩

/-! Theorems.  Each claim of the specification review is settled by one
theorem below; general theorems with hypotheses are accompanied by a
closed witness instantiating them. -/

/-- C8: the claim asserts `AABB.intersects` is reflexive for every box
including inverted ones (min > max).  Counterexample: the inverted box
`(minX, minY, maxX, maxY) = (1, 0, 0, 0)` does not intersect itself,
because `minX <= other.maxX` instantiates to `1 <= 0`. -/
theorem aabb_intersects_not_refl_on_inverted :
    (AABB.mk 1 0 0 0).intersects (AABB.mk 1 0 0 0) = false := by decide

/-- C8 (amended): `AABB.intersects` is symmetric for every pair of
boxes, reflexive for every box that is not inverted
(`minX ≤ maxX ∧ minY ≤ maxY`, which includes all degenerate zero-area
boxes), and reports two boxes that share an edge (here a vertical edge
`a.maxX = b.minX`, with overlapping closed y-intervals) as
intersecting.  Reflexivity genuinely fails on inverted boxes (see the
counterexample), so the non-inverted hypothesis is the only change. -/
theorem aabb_intersects_symm_refl_touching :
    (∀ a b : AABB, a.intersects b = b.intersects a) ∧
    (∀ a : AABB, a.minX ≤ a.maxX → a.minY ≤ a.maxY → a.intersects a = true) ∧
    (∀ a b : AABB, a.maxX = b.minX → a.minX ≤ a.maxX → b.minX ≤ b.maxX →
      a.minY ≤ b.maxY → b.minY ≤ a.maxY → a.intersects b = true) := by
  refine ⟨?_, ?_, ?_⟩
  · intro a b
    simp only [AABB.intersects, ge_iff_le]
    by_cases h1 : a.minX ≤ b.maxX <;> by_cases h2 : b.minX ≤ a.maxX <;>
      by_cases h3 : a.minY ≤ b.maxY <;> by_cases h4 : b.minY ≤ a.maxY <;>
      simp [h1, h2, h3, h4]
  · intro a h1 h2
    simp [AABB.intersects, h1, h2]
  · intro a b hedge h1 h2 h3 h4
    have hx1 : a.minX ≤ b.maxX := le_trans h1 (hedge ▸ h2)
    have hx2 : b.minX ≤ a.maxX := le_of_eq hedge.symm
    simp [AABB.intersects, hx1, hx2, h3, h4]

/-- C8 witness: the amended theorem applied at concrete boxes — the
unit boxes `(0,0,2,2)` and `(2,0,5,2)`, which share the edge `x = 2`. -/
theorem aabb_intersects_witness :
    ((AABB.mk 0 0 2 2).intersects (AABB.mk 2 0 5 2) =
      (AABB.mk 2 0 5 2).intersects (AABB.mk 0 0 2 2)) ∧
    ((AABB.mk 0 0 2 2).intersects (AABB.mk 0 0 2 2) = true) ∧
    ((AABB.mk 0 0 2 2).intersects (AABB.mk 2 0 5 2) = true) :=
  ⟨aabb_intersects_symm_refl_touching.1 (AABB.mk 0 0 2 2) (AABB.mk 2 0 5 2),
   aabb_intersects_symm_refl_touching.2.1 (AABB.mk 0 0 2 2)
     (by decide) (by decide),
   aabb_intersects_symm_refl_touching.2.2 (AABB.mk 0 0 2 2) (AABB.mk 2 0 5 2)
     (by decide) (by decide) (by decide) (by decide) (by decide)⟩

/-- C10: `CommandManager.execute` sets `redoStack = []` unconditionally
after the merge-or-push step, so `canRedo()` is `false` immediately
after any `execute`, including one that merged into the stack top and
produced no new history entry. -/
theorem execute_clears_redo (m : CommandManager) (scene : Scene) (c : Cmd) :
    (m.execute scene c).1.redoStack = [] ∧ (m.execute scene c).1.canRedo = false :=
  ⟨rfl, rfl⟩

/-- C6: the history bound defaults to 100
(`options.maxHistory ?? 100`); executing a command that does not merge
with the stack top while the undo stack holds `maxHistory` entries
appends the command and drops exactly the oldest entry
(`undoStack.shift()`), leaving the rest in order and the stack at its
capacity. -/
theorem execute_evicts_oldest_at_capacity :
    CommandManager.create.maxHistory = 100 ∧
    ∀ (m : CommandManager) (scene : Scene) (c : Cmd),
      m.undoStack.length = m.maxHistory →
      m.undoStack.getLast?.all (fun last => ! c.canMerge last) = true →
      (m.execute scene c).1.undoStack = (m.undoStack ++ [c]).drop 1 ∧
      (m.execute scene c).1.undoStack.length = m.maxHistory := by
  refine ⟨rfl, ?_⟩
  intro m scene c hlen hmerge
  have hstack : (m.execute scene c).1.undoStack = (m.undoStack ++ [c]).drop 1 := by
    simp only [CommandManager.execute]
    cases h : m.undoStack.getLast? with
    | none =>
      have hnil : m.undoStack = [] := List.getLast?_eq_none_iff.mp h
      have hmax : m.maxHistory = 0 := by
        rw [hnil] at hlen; simpa using hlen.symm
      simp [hnil, hmax]
    | some last =>
      rw [h] at hmerge
      simp only [Option.all_some, Bool.not_eq_true'] at hmerge
      have hgt : (m.undoStack ++ [c]).length > m.maxHistory := by
        simp [List.length_append, hlen]
      simp [h, hmerge, hgt]
      intro hle
      exfalso
      rw [hlen] at hle
      omega
  refine ⟨hstack, ?_⟩
  rw [hstack]
  simp [List.length_drop, List.length_append, hlen]

/-- C6 witness: a manager at capacity 2 holding two non-mergeable
commands; executing a third pushes it and evicts the oldest. -/
theorem execute_evicts_oldest_witness :
    ((CommandManager.mk
        [Cmd.addShape { id := "a", x := 0, y := 0, width := 1, height := 1 },
         Cmd.addShape { id := "b", x := 0, y := 0, width := 1, height := 1 }]
        [] 2).execute
        (Scene.create true false none)
        (Cmd.addShape { id := "c", x := 0, y := 0, width := 1, height := 1 })).1.undoStack =
      [Cmd.addShape { id := "b", x := 0, y := 0, width := 1, height := 1 },
       Cmd.addShape { id := "c", x := 0, y := 0, width := 1, height := 1 }] := by
  have h := (execute_evicts_oldest_at_capacity.2
    (CommandManager.mk
      [Cmd.addShape { id := "a", x := 0, y := 0, width := 1, height := 1 },
       Cmd.addShape { id := "b", x := 0, y := 0, width := 1, height := 1 }]
      [] 2)
    (Scene.create true false none)
    (Cmd.addShape { id := "c", x := 0, y := 0, width := 1, height := 1 })
    (by decide) (by decide)).1
  simpa using h

/-- C1: the quadtree point query misses shapes away from the origin,
because `QuadTreeNode.insert` and `queryPoint` test the shape's
`getBoundingBox()` — the local-space box centered on the origin — against
world-space points, while `hitTest` works in world space.  At the
failing input, a 100×100 rectangle at (500, 500) inside the default tree
bounds: after `rebuild` the candidate set for the point (500, 500) is
empty even though the exact `hitTest` reports `true`, so the index omits
a shape the exact hit test at that point reports, contradicting the
superset guarantee. -/
theorem quadtree_query_misses_exact_hit :
    (QuadTree.rebuild (QuadTree.create Scene.defaultQuadTreeBounds)
        [sampleRect "s1" 500 500]).queryPoint ⟨500, 500⟩ = [] ∧
    (sampleRect "s1" 500 500).hitTest ⟨500, 500⟩ = some true := by
  have hins : QTNode.insert 20
      (.mk Scene.defaultQuadTreeBounds [] none 4 8 0) (sampleRect "s1" 500 500) =
      (.mk Scene.defaultQuadTreeBounds [sampleRect "s1" 500 500] none 4 8 0, true) := by
    rw [show (20 : Nat) = 19 + 1 from rfl]
    simp only [QTNode.insert]
    norm_num [AABB.intersects, Rect.getBoundingBox, sampleRect,
      Scene.defaultQuadTreeBounds]
  have hreb : QuadTree.rebuild (QuadTree.create Scene.defaultQuadTreeBounds)
      [sampleRect "s1" 500 500] =
      ⟨.mk Scene.defaultQuadTreeBounds [sampleRect "s1" 500 500] none 4 8 0, 4, 8⟩ := by
    simp only [QuadTree.rebuild, QuadTree.clear, QTNode.clearNode, QuadTree.create,
      QuadTree.insertAll, List.foldl, QuadTree.insert, QuadTree.insertFuel]
    norm_num [hins]
  constructor
  · rw [hreb]
    simp only [QuadTree.queryPoint, QTNode.queryPoint]
    norm_num [AABB.containsPoint, Rect.getBoundingBox, sampleRect,
      Scene.defaultQuadTreeBounds, List.foldl]
  · norm_num [Rect.hitTest, Rect.worldToLocal, Rect.getWorldMatrix,
      Rect.getLocalMatrix, Matrix2D.identity, Matrix2D.translate, Matrix2D.rotate,
      Matrix2D.scale, Matrix2D.translateM, Matrix2D.rotateCS, Matrix2D.scaleM,
      Matrix2D.multiply, Matrix2D.invert, Matrix2D.transformPoint, sampleRect]

/-- C3: `Scene.addMany` and `Scene.removeMany` change shape membership
but do not set `quadTreeDirty` (only `add` and `remove` do), so after a
bulk add/remove the next query reuses the stale index.  Starting from a
quadtree-enabled scene holding one shape with a freshly rebuilt index
(`quadTreeDirty = false`): `addMany`/`removeMany` change the shape list
yet leave the flag `false`, while `add`/`remove` set it `true`. -/
theorem addMany_removeMany_do_not_mark_dirty :
    (((Scene.create true true none).add
        (sampleRect "r1" 0 0)).rebuildQuadTreeIfNeeded.quadTreeDirty = false) ∧
    ((((Scene.create true true none).add
        (sampleRect "r1" 0 0)).rebuildQuadTreeIfNeeded.addMany
        [sampleRect "r2" 300 0]).quadTreeDirty = false) ∧
    ((((Scene.create true true none).add
        (sampleRect "r1" 0 0)).rebuildQuadTreeIfNeeded.addMany
        [sampleRect "r2" 300 0]).shapes.length = 2) ∧
    ((((Scene.create true true none).add
        (sampleRect "r1" 0 0)).rebuildQuadTreeIfNeeded.removeMany
        [sampleRect "r1" 0 0]).quadTreeDirty = false) ∧
    ((((Scene.create true true none).add
        (sampleRect "r1" 0 0)).rebuildQuadTreeIfNeeded.removeMany
        [sampleRect "r1" 0 0]).shapes.length = 0) ∧
    ((((Scene.create true true none).add
        (sampleRect "r1" 0 0)).rebuildQuadTreeIfNeeded.add
        (sampleRect "r2" 300 0)).quadTreeDirty = true) ∧
    (((((Scene.create true true none).add
        (sampleRect "r1" 0 0)).rebuildQuadTreeIfNeeded.remove
        (sampleRect "r1" 0 0)).1).quadTreeDirty = true) := by
  refine ⟨rfl, rfl, by decide, rfl, by decide, rfl, ?_⟩
  decide

/-- C2: the client broadcast serializer reads fields that do not exist
on `MoveShapeCommand` (`command.shape?.id`, `command.delta`; the class
stores `shapes`/`dx`/`dy`) and on `RemoveShapeCommand`
(`command.shapes`; the class stores `shapesToRemove`), so moves are
broadcast as `{type:'move-shape', shapeId: undefined, delta: undefined}`
and removals as the unhandled `{type:'RemoveShapeCommand'}`.  At the
failing input — client A moves shape `s1` by (10, 5) — A's copy ends at
(10, 5) while applying the received payload leaves B's scene unchanged
at (0, 0); a removal broadcast likewise leaves B's scene unchanged. -/
theorem remote_move_and_remove_not_applied :
    (((CommandManager.create.execute
          (Scene.mk [sampleRect "s1" 0 0] true false none true)
          (Cmd.mkMoveShapeCommand [sampleRect "s1" 0 0] 10 5)).2.findById
          "s1").map (fun sh => (sh.x, sh.y)) = some (10, 5)) ∧
    (extractCommandData (Cmd.mkMoveShapeCommand [sampleRect "s1" 0 0] 10 5) =
      { type := "move-shape", shapeId := none, delta := none }) ∧
    ((handleRemoteCommand (Scene.mk [sampleRect "s1" 0 0] true false none true)
        (extractCommandData
          (Cmd.mkMoveShapeCommand [sampleRect "s1" 0 0] 10 5))).shapes =
      [sampleRect "s1" 0 0]) ∧
    (extractCommandData (Cmd.removeShape [sampleRect "s1" 0 0]) =
      { type := "RemoveShapeCommand" }) ∧
    ((handleRemoteCommand (Scene.mk [sampleRect "s1" 0 0] true false none true)
        (extractCommandData (Cmd.removeShape [sampleRect "s1" 0 0]))).shapes =
      [sampleRect "s1" 0 0]) := by
  have hexec : (CommandManager.create.execute
      (Scene.mk [sampleRect "s1" 0 0] true false none true)
      (Cmd.mkMoveShapeCommand [sampleRect "s1" 0 0] 10 5)).2.shapes =
      [{ sampleRect "s1" 0 0 with x := (0 : ℚ) + 10, y := (0 : ℚ) + 5 }] := by
    simp [CommandManager.execute, Cmd.exec, Cmd.mkMoveShapeCommand, sampleRect]
  refine ⟨?_, by decide, by decide, by decide, by decide⟩
  rw [Scene.findById, hexec]
  norm_num [List.find?, sampleRect]


/-- Helper: in a list of shapes with pairwise-distinct ids, two members
with the same id are the same shape (embeds reference identity, see the
module comment). -/
theorem rect_eq_of_mem_of_id_eq {shapes : List Rect}
    (hids : (shapes.map (·.id)).Nodup) {a b : Rect}
    (ha : a ∈ shapes) (hb : b ∈ shapes) (h : a.id = b.id) : a = b :=
  List.inj_on_of_nodup_map hids ha hb h

/-- Helper: looking up a member shape's id in the `oldPositions`
snapshot built by the `MoveShapeCommand` constructor returns that
shape's own original position, provided the selection only holds shapes
of the scene and scene ids are unique. -/
theorem find_oldPositions_of_mem {sel shapes : List Rect}
    (hsel : ∀ r ∈ sel, r ∈ shapes)
    (hids : (shapes.map (·.id)).Nodup) {r : Rect} (hr : r ∈ shapes)
    (hmem : r.id ∈ sel.map (·.id)) :
    (sel.map fun sh => (sh.id, sh.x, sh.y)).find? (fun p => p.1 = r.id) =
      some (r.id, r.x, r.y) := by
  induction sel with
  | nil => simp at hmem
  | cons s tl ih =>
    by_cases h : s.id = r.id
    · have hs : s = r :=
        rect_eq_of_mem_of_id_eq hids (hsel s (by simp)) hr h
      subst hs
      simp [List.find?_cons]
    · have hmem' : r.id ∈ tl.map (·.id) := by
        rcases (by simpa using hmem : r.id = s.id ∨ ∃ a ∈ tl, a.id = r.id) with
          h1 | ⟨a, ha, haid⟩
        · exact absurd h1.symm h
        · exact List.mem_map.mpr ⟨a, ha, haid⟩
      have hsel' : ∀ x ∈ tl, x ∈ shapes := fun x hx => hsel x (by simp [hx])
      simpa [List.find?_cons, h] using ih hsel' hmem'

/-- Helper: looking up a non-selected shape's id in the snapshot finds
nothing. -/
theorem find_oldPositions_of_not_mem {sel : List Rect} {r : Rect}
    (hmem : r.id ∉ sel.map (·.id)) :
    (sel.map fun sh => (sh.id, sh.x, sh.y)).find? (fun p => p.1 = r.id) = none := by
  rw [List.find?_eq_none]
  intro p hp
  simp only [List.mem_map] at hp
  rcases hp with ⟨sh, hsh, rfl⟩
  simp only [decide_eq_true_eq]
  intro hcontr
  exact hmem (List.mem_map.mpr ⟨sh, hsh, hcontr⟩)

/-- Helper: applying two successive move deltas to every selected shape
and then restoring from the first command's `oldPositions` snapshot is
the identity on the scene's shape list. -/
theorem moveShape_exec_exec_undo (shapes sel : List Rect) (d1x d1y d2x d2y : ℚ)
    (hsel : ∀ r ∈ sel, r ∈ shapes)
    (hids : (shapes.map (·.id)).Nodup) :
    (((shapes.map fun sh =>
        if sh.id ∈ sel.map (·.id) then
          { sh with x := sh.x + d1x, y := sh.y + d1y } else sh).map fun sh =>
        if sh.id ∈ sel.map (·.id) then
          { sh with x := sh.x + d2x, y := sh.y + d2y } else sh).map fun sh =>
        match (sel.map fun s => (s.id, s.x, s.y)).find? (fun p => p.1 = sh.id) with
        | some (_, ox, oy) => { sh with x := ox, y := oy }
        | none => sh) = shapes := by
  rw [List.map_map, List.map_map]
  conv_rhs => rw [← List.map_id shapes]
  apply List.map_congr_left
  intro r hr
  simp only [Function.comp_apply, id_eq]
  by_cases hmem : r.id ∈ sel.map (·.id)
  · simp only [if_pos hmem]
    rw [find_oldPositions_of_mem hsel hids hr hmem]
  · simp only [if_neg hmem]
    rw [find_oldPositions_of_not_mem hmem]


/-- C5: two mergeable move commands on the same shape set collapse into
a single undo-stack entry whose deltas are the sums of the individual
deltas (with the first command's `oldPositions` snapshot kept), and one
`undo()` restores the scene exactly as before the first move.  The
hypotheses embed the source's reference discipline: the selection holds
shapes of the scene and scene ids are unique. -/
theorem merged_moves_one_entry_undo_restores
    (s0 : Scene) (sel : List Rect) (d1x d1y d2x d2y : ℚ)
    (hsel : ∀ r ∈ sel, r ∈ s0.shapes)
    (hids : (s0.shapes.map (·.id)).Nodup) :
    (twoMoves s0 sel d1x d1y d2x d2y).1.undoStack =
      [Cmd.moveShape (sel.map (·.id)) (d1x + d2x) (d1y + d2y)
        (sel.map fun sh => (sh.id, sh.x, sh.y))] ∧
    ((twoMoves s0 sel d1x d1y d2x d2y).1.undo
      (twoMoves s0 sel d1x d1y d2x d2y).2).2 = s0 := by
  have hsame : (sel.map fun r =>
      ({ r with x := r.x + d1x, y := r.y + d1y } : Rect)).map (·.id) =
      sel.map (·.id) := by
    simp [List.map_map]
  have hcm : (Cmd.mkMoveShapeCommand
      (sel.map fun r => { r with x := r.x + d1x, y := r.y + d1y }) d2x d2y).canMerge
      (Cmd.mkMoveShapeCommand sel d1x d1y) = true := by
    simp only [Cmd.mkMoveShapeCommand, Cmd.canMerge, hsame]
    simp [List.all_eq_true, List.elem_iff]
  have h1 : CommandManager.create.execute s0 (Cmd.mkMoveShapeCommand sel d1x d1y) =
      (⟨[Cmd.mkMoveShapeCommand sel d1x d1y], [], 100⟩,
       (Cmd.mkMoveShapeCommand sel d1x d1y).exec s0) := rfl
  have h2 : twoMoves s0 sel d1x d1y d2x d2y =
      (⟨[Cmd.moveShape (sel.map (·.id)) (d1x + d2x) (d1y + d2y)
          (sel.map fun sh => (sh.id, sh.x, sh.y))], [], 100⟩,
       (Cmd.mkMoveShapeCommand
          (sel.map fun r => { r with x := r.x + d1x, y := r.y + d1y }) d2x d2y).exec
         ((Cmd.mkMoveShapeCommand sel d1x d1y).exec s0)) := by
    simp only [twoMoves]
    rw [h1]
    simp only [CommandManager.execute, List.getLast?_singleton]
    rw [hcm]
    simp [Cmd.mkMoveShapeCommand, Cmd.merge]
  refine ⟨by rw [h2], ?_⟩
  rw [h2]
  simp only [CommandManager.undo, List.getLast?_singleton, Cmd.undoCmd,
    Cmd.mkMoveShapeCommand, Cmd.exec]
  simp only [hsame]
  have := moveShape_exec_exec_undo s0.shapes sel d1x d1y d2x d2y hsel hids
  rw [this]

/-- C5 witness: two (10, 5) moves of shape `a` in a one-shape scene
merge into one entry with delta (20, 10), and one undo restores the
original scene. -/
theorem merged_moves_witness :
    (twoMoves (Scene.mk [sampleRect "a" 0 0] true false none true)
        [sampleRect "a" 0 0] 10 5 10 5).1.undoStack =
      [Cmd.moveShape ([sampleRect "a" 0 0].map (·.id)) (10 + 10) (5 + 5)
        ([sampleRect "a" 0 0].map fun sh => (sh.id, sh.x, sh.y))] ∧
    ((twoMoves (Scene.mk [sampleRect "a" 0 0] true false none true)
        [sampleRect "a" 0 0] 10 5 10 5).1.undo
      (twoMoves (Scene.mk [sampleRect "a" 0 0] true false none true)
        [sampleRect "a" 0 0] 10 5 10 5).2).2 =
      Scene.mk [sampleRect "a" 0 0] true false none true :=
  merged_moves_one_entry_undo_restores
    (Scene.mk [sampleRect "a" 0 0] true false none true)
    [sampleRect "a" 0 0] 10 5 10 5 (by decide) (by decide)

/-- Helper: `removeFirstById` yields a sublist. -/
theorem removeFirstById_sublist (i : String) (l : List Rect) :
    (Scene.removeFirstById i l).Sublist l := by
  induction l with
  | nil => simp [Scene.removeFirstById]
  | cons t ts ih =>
    simp only [Scene.removeFirstById]
    by_cases h : t.id = i
    · rw [if_pos h]
      exact List.sublist_cons_self t ts
    · rw [if_neg h]
      exact ih.cons₂ t

/-- Helper: a member with a different id survives `removeFirstById`. -/
theorem mem_removeFirstById_of_ne {i : String} {x : Rect} {l : List Rect}
    (hx : x ∈ l) (hne : x.id ≠ i) : x ∈ Scene.removeFirstById i l := by
  induction l with
  | nil => simp at hx
  | cons t ts ih =>
    simp only [Scene.removeFirstById]
    by_cases h : t.id = i
    · rw [if_pos h]
      rcases List.mem_cons.mp hx with rfl | hx'
      · exact absurd h hne
      · exact hx'
    · rw [if_neg h]
      rcases List.mem_cons.mp hx with rfl | hx'
      · exact List.mem_cons_self x _
      · exact List.mem_cons_of_mem t (ih hx')

/-- Helper: removing a member shape by id and putting it back in front
is a permutation, under unique ids. -/
theorem cons_removeFirstById_perm {s : Rect} {shapes : List Rect}
    (hs : s ∈ shapes) (hids : (shapes.map (·.id)).Nodup) :
    (s :: Scene.removeFirstById s.id shapes).Perm shapes := by
  induction shapes with
  | nil => simp at hs
  | cons t ts ih =>
    simp only [Scene.removeFirstById]
    by_cases h : t.id = s.id
    · rw [if_pos h]
      have : t = s := rect_eq_of_mem_of_id_eq hids (by simp) hs h
      subst this
      exact List.Perm.refl _
    · rw [if_neg h]
      have hs' : s ∈ ts := by
        rcases List.mem_cons.mp hs with rfl | hx'
        · exact absurd rfl h
        · exact hx'
      have hids' : (ts.map (·.id)).Nodup := by
        simpa using (List.nodup_cons.mp (by simpa using hids)).2
      exact (List.Perm.swap t s _).trans ((ih hs' hids').cons t)

/-- Helper: `Scene.removeMany`'s fold removes exactly the selected
member shapes — re-appending the selection is a permutation of the
original list, under unique scene ids and unique selection ids. -/
theorem removeMany_append_perm (sel : List Rect) (shapes : List Rect)
    (hsel : ∀ r ∈ sel, r ∈ shapes)
    (hids : (shapes.map (·.id)).Nodup)
    (hselids : (sel.map (·.id)).Nodup) :
    ((sel.foldl (fun acc sh => Scene.removeFirstById sh.id acc) shapes) ++ sel).Perm
      shapes := by
  induction sel generalizing shapes with
  | nil => simp
  | cons s tl ih =>
    have hs : s ∈ shapes := hsel s (by simp)
    have hids' : ((Scene.removeFirstById s.id shapes).map (·.id)).Nodup :=
      ((removeFirstById_sublist s.id shapes).map (·.id)).nodup hids
    have hnodup : s.id ∉ tl.map (·.id) ∧ (tl.map (·.id)).Nodup := by
      rw [List.map_cons, List.nodup_cons] at hselids
      exact hselids
    have hneid : ∀ x ∈ tl, x.id ≠ s.id := by
      intro x hx heq
      exact hnodup.1 (List.mem_map.mpr ⟨x, hx, heq⟩)
    have hsel' : ∀ x ∈ tl, x ∈ Scene.removeFirstById s.id shapes := fun x hx =>
      mem_removeFirstById_of_ne (hsel x (by simp [hx])) (hneid x hx)
    have ihtl := ih (Scene.removeFirstById s.id shapes) hsel' hids' hnodup.2
    exact List.perm_middle.trans
      ((ihtl.cons s).trans (cons_removeFirstById_perm hs hids))

/-- Helper: `insertZ` is a permutation of consing. -/
theorem insertZ_perm (s : Rect) (l : List Rect) :
    (insertZ s l).Perm (s :: l) := by
  induction l with
  | nil => simp [insertZ]
  | cons t ts ih =>
    simp only [insertZ]
    by_cases h : s.zIndex ≤ t.zIndex
    · rw [if_pos h]
    · rw [if_neg h]
      exact (ih.cons t).trans (List.Perm.swap s t ts)

/-- Helper: the stable sort is a permutation. -/
theorem sortByZ_perm (l : List Rect) : (sortByZ l).Perm l := by
  induction l with
  | nil => simp [sortByZ]
  | cons s ss ih =>
    simpa [sortByZ] using (insertZ_perm s (sortByZ ss)).trans (ih.cons s)

/-- Helper: `insertZ` preserves being sorted by `zIndex`. -/
theorem insertZ_sorted (s : Rect) {l : List Rect}
    (hl : l.Pairwise (fun a b => a.zIndex ≤ b.zIndex)) :
    (insertZ s l).Pairwise (fun a b => a.zIndex ≤ b.zIndex) := by
  induction l with
  | nil => simp [insertZ]
  | cons t ts ih =>
    simp only [insertZ]
    by_cases h : s.zIndex ≤ t.zIndex
    · rw [if_pos h]
      refine List.Pairwise.cons ?_ hl
      intro b hb
      rcases List.mem_cons.mp hb with rfl | hb'
      · exact h
      · exact le_trans h ((List.pairwise_cons.mp hl).1 b hb')
    · rw [if_neg h]
      have hts := (List.pairwise_cons.mp hl).2
      refine List.Pairwise.cons ?_ (ih hts)
      intro b hb
      have hb2 : b = s ∨ b ∈ ts := by
        simpa using (insertZ_perm s ts).mem_iff.mp hb
      rcases hb2 with rfl | hb'
      · exact le_of_lt (lt_of_not_le h)
      · exact (List.pairwise_cons.mp hl).1 b hb'

/-- Helper: the stable sort output is sorted by `zIndex`. -/
theorem sortByZ_sorted (l : List Rect) :
    (sortByZ l).Pairwise (fun a b => a.zIndex ≤ b.zIndex) := by
  induction l with
  | nil => simp [sortByZ]
  | cons s ss ih => simpa [sortByZ] using insertZ_sorted s ih

/-- Helper: a sorted-by-strict-z permutation of a strictly z-sorted
list equals it. -/
theorem eq_of_perm_strict_sorted {l₁ l₂ : List Rect}
    (hp : l₁.Perm l₂)
    (h₁ : l₁.Pairwise (fun a b => a.zIndex < b.zIndex))
    (h₂ : l₂.Pairwise (fun a b => a.zIndex < b.zIndex)) : l₁ = l₂ := by
  haveI : IsAntisymm Rect (fun a b => a.zIndex < b.zIndex) :=
    ⟨fun a b h1 h2 => absurd h1 (lt_asymm h2)⟩
  exact List.eq_of_perm_of_sorted hp h₁ h₂

/-- Helper: re-sorting after removing the selection and appending it
back restores a strictly z-sorted shape list exactly. -/
theorem sortByZ_removeMany_append (shapes sel : List Rect)
    (hz : shapes.Pairwise (fun a b => a.zIndex < b.zIndex))
    (hids : (shapes.map (·.id)).Nodup)
    (hsel : ∀ r ∈ sel, r ∈ shapes)
    (hselids : (sel.map (·.id)).Nodup) :
    sortByZ ((sel.foldl (fun acc sh => Scene.removeFirstById sh.id acc) shapes)
      ++ sel) = shapes := by
  have hperm : (sortByZ ((sel.foldl
      (fun acc sh => Scene.removeFirstById sh.id acc) shapes) ++ sel)).Perm shapes :=
    (sortByZ_perm _).trans (removeMany_append_perm sel shapes hsel hids hselids)
  have hne : shapes.Pairwise (fun a b => a.zIndex ≠ b.zIndex) :=
    hz.imp fun h => ne_of_lt h
  have hne2 := (List.Perm.pairwise_iff (fun h => Ne.symm h) hperm).mpr hne
  have hlt := ((sortByZ_sorted _).and hne2).imp
    (fun h => lt_of_le_of_ne h.1 h.2)
  exact eq_of_perm_strict_sorted hperm hlt hz

/-- C4: the claim asserts `execute(cmd); undo()` restores the scene
bit-for-bit for every command.  Counterexample with
`RemoveShapeCommand`: in a scene holding shapes `a`, `b` with equal
`zIndex` (the constructor default 0), removing `a` and undoing re-adds
`a` at the end (`undo` calls `scene.addMany`, which appends and then
stable-sorts by `zIndex`), so the shape list comes back as `[b, a]`,
not the original `[a, b]`. -/
theorem remove_undo_reorders_tied_zindex :
    (((CommandManager.create.execute
        (Scene.mk [sampleRect "a" 0 0, sampleRect "b" 200 0] true false none true)
        (Cmd.removeShape [sampleRect "a" 0 0])).1.undo
      (CommandManager.create.execute
        (Scene.mk [sampleRect "a" 0 0, sampleRect "b" 200 0] true false none true)
        (Cmd.removeShape [sampleRect "a" 0 0])).2).2.shapes =
      [sampleRect "b" 200 0, sampleRect "a" 0 0]) ∧
    ((((CommandManager.create.execute
        (Scene.mk [sampleRect "a" 0 0, sampleRect "b" 200 0] true false none true)
        (Cmd.removeShape [sampleRect "a" 0 0])).1.undo
      (CommandManager.create.execute
        (Scene.mk [sampleRect "a" 0 0, sampleRect "b" 200 0] true false none true)
        (Cmd.removeShape [sampleRect "a" 0 0])).2).2.shapes ≠
      [sampleRect "a" 0 0, sampleRect "b" 200 0])) := by
  refine ⟨by decide, by decide⟩

/-- C4 (amended): `execute(RemoveShapeCommand); undo()` always restores
the scene's shape multiset with every shape's fields intact, and
restores the list order exactly whenever the scene's shapes have
pairwise-distinct `zIndex` values (the re-sort then reproduces the
original order); with tied `zIndex` values the re-added shapes move to
the end of their tie group (see the counterexample).  The hypotheses
embed the source's reference discipline (unique ids, selection drawn
from the scene) and the default `autoSort` configuration. -/
theorem remove_undo_restores_scene
    (s0 : Scene) (sel : List Rect)
    (hsort : s0.autoSort = true)
    (hz : s0.shapes.Pairwise (fun a b => a.zIndex < b.zIndex))
    (hids : (s0.shapes.map (·.id)).Nodup)
    (hsel : ∀ r ∈ sel, r ∈ s0.shapes)
    (hselids : (sel.map (·.id)).Nodup) :
    ((CommandManager.create.execute s0 (Cmd.removeShape sel)).1.undo
      (CommandManager.create.execute s0 (Cmd.removeShape sel)).2).2 = s0 := by
  have h1 : CommandManager.create.execute s0 (Cmd.removeShape sel) =
      (⟨[Cmd.removeShape sel], [], 100⟩, (Cmd.removeShape sel).exec s0) := rfl
  rw [h1]
  simp only [CommandManager.undo, List.getLast?_singleton, Cmd.undoCmd, Cmd.exec,
    Scene.removeMany, Scene.addMany, Scene.sortScene, hsort, if_true]
  rw [sortByZ_removeMany_append s0.shapes sel hz hids hsel hselids, ← hsort]

/-- C4 witness: the amended theorem applied to a scene holding shapes
`a` (zIndex 1) and `b` (zIndex 2), removing `a` and undoing. -/
theorem remove_undo_restores_witness :
    ((CommandManager.create.execute
        (Scene.mk [{ sampleRect "a" 0 0 with zIndex := 1 },
          { sampleRect "b" 200 0 with zIndex := 2 }] true false none true)
        (Cmd.removeShape [{ sampleRect "a" 0 0 with zIndex := 1 }])).1.undo
      (CommandManager.create.execute
        (Scene.mk [{ sampleRect "a" 0 0 with zIndex := 1 },
          { sampleRect "b" 200 0 with zIndex := 2 }] true false none true)
        (Cmd.removeShape [{ sampleRect "a" 0 0 with zIndex := 1 }])).2).2 =
      Scene.mk [{ sampleRect "a" 0 0 with zIndex := 1 },
        { sampleRect "b" 200 0 with zIndex := 2 }] true false none true :=
  remove_undo_restores_scene
    (Scene.mk [{ sampleRect "a" 0 0 with zIndex := 1 },
      { sampleRect "b" 200 0 with zIndex := 2 }] true false none true)
    [{ sampleRect "a" 0 0 with zIndex := 1 }]
    rfl (by decide) (by decide) (by decide) (by decide)

/-- Helper: updating the entries matching a key in place commutes with
keyed lookup, provided the update preserves the key. -/
theorem find?_map_keyed {α : Type} (key : α → String) (k : String) (f : α → α)
    (hf : ∀ a, key (f a) = key a) (l : List α) :
    (l.map fun a => if key a = k then f a else a).find? (fun a => key a = k) =
      (l.find? (fun a => key a = k)).map f := by
  induction l with
  | nil => simp
  | cons t ts ih =>
    by_cases ht : key t = k
    · simp [List.find?_cons, ht, hf]
    · simp [List.find?_cons, ht, ih]

/-- Helper: `RoomService.addUser` touches only the room's `users` list:
lookup afterwards still finds the record, with `shapes` and `version`
unchanged. -/
theorem findRoom_addUser {db : ServerDb} {roomId : String} {rec : RoomRecord}
    (h : db.findRoom roomId = some rec) (u : RoomUser) :
    (db.addUser roomId u).findRoom roomId =
      some { rec with
        users := if rec.users.contains u then rec.users else rec.users ++ [u] } := by
  have hany : db.rooms.any (·.roomId = roomId) = true := by
    rw [List.any_eq_true]
    refine ⟨rec, List.mem_of_find?_eq_some h, ?_⟩
    simpa using List.find?_some h
  simp only [ServerDb.addUser, ServerDb.upsertRoom, hany, if_true, ServerDb.findRoom]
  have := find?_map_keyed (·.roomId) roomId
    (fun r => { r with
      users := if r.users.contains u then r.users else r.users ++ [u] })
    (fun a => rfl) db.rooms
  rw [this]
  have hid : rec.roomId = roomId := by simpa using List.find?_some h
  simp only [ServerDb.findRoom] at h
  rw [h]
  rfl

/-- Helper: adding a connection to a room's set does not change the set
of other connections. -/
theorem addConn_filter_ne (rs : List (String × List Nat)) (roomId : String)
    (ws : Nat) :
    ((((WSState.addConn rs roomId ws).find? (·.1 = roomId)).map (·.2)).getD
        []).filter (· ≠ ws) =
      ((((rs.find? (·.1 = roomId)).map (·.2)).getD []).filter (· ≠ ws)) := by
  by_cases hany : rs.any (·.1 = roomId) = true
  · simp only [WSState.addConn, hany, if_true]
    have := find?_map_keyed (·.1) roomId
      (fun p => (p.1, if p.2.contains ws then p.2 else p.2 ++ [ws]))
      (fun a => rfl) rs
    rw [this]
    cases h : rs.find? (·.1 = roomId) with
    | none => rfl
    | some p =>
      simp only [Option.map_some', Option.getD_some]
      by_cases hc : p.2.contains ws = true
      · rw [if_pos hc]
      · rw [if_neg hc, List.filter_append]
        have hws : ([ws].filter (· ≠ ws)) = [] := by simp
        rw [hws, List.append_nil]
  · have hnone : rs.find? (·.1 = roomId) = none := by
      rw [List.find?_eq_none]
      intro x hx hpx
      exact hany (List.any_eq_true.mpr ⟨x, hx, hpx⟩)
    have hany' : rs.any (·.1 = roomId) = false := by
      cases hval : rs.any (·.1 = roomId) with
      | false => rfl
      | true => exact absurd hval hany
    simp only [WSState.addConn, hany', Bool.false_eq_true, if_false]
    rw [List.find?_append, hnone]
    simp

/-- Helper: `RoomService.getRoom` after `addUser` returns the stored
room with only its `users` list updated. -/
theorem getRoom_addUser {db : ServerDb} {roomId : String} {rec : RoomRecord}
    (h : db.findRoom roomId = some rec) (u : RoomUser) :
    (db.addUser roomId u).getRoom roomId =
      ({ rec with
          users := if rec.users.contains u then rec.users else rec.users ++ [u] },
        db.addUser roomId u) := by
  simp only [ServerDb.getRoom, findRoom_addUser h u]

/-- Helper: registering the joining connection in the `clients` map
(`setClient`) does not change the lookup of any other connection. -/
theorem find?_setClient_ne (cs : List (Nat × ClientInfo)) (ws c : Nat)
    (info : ClientInfo) (hne : c ≠ ws) :
    (WSState.setClient cs ws info).find? (·.1 = c) = cs.find? (·.1 = c) := by
  have hmap : ∀ l : List (Nat × ClientInfo),
      (l.map fun p => if p.1 = ws then (ws, info) else p).find? (·.1 = c) =
        l.find? (·.1 = c) := by
    intro l
    induction l with
    | nil => rfl
    | cons t ts ih =>
      by_cases ht : t.1 = ws
      · have h1 : ¬((ws, info).1 = c) := fun hh => hne hh.symm
        have h2 : ¬(t.1 = c) := by
          rw [ht]
          exact fun hh => hne hh.symm
        simp [List.find?_cons, ht, h1, h2, ih]
      · simp only [List.map_cons, if_neg ht, List.find?_cons]
        by_cases htc : t.1 = c
        · simp [htc]
        · simp [htc, ih]
  unfold WSState.setClient
  by_cases hany : cs.any (·.1 = ws) = true
  · rw [if_pos hany]
    exact hmap cs
  · rw [if_neg hany, List.find?_append]
    have hsingle : ([(ws, info)].find? (·.1 = c)) = none := by
      have h1 : ¬((ws, info).1 = c) := fun hh => hne hh.symm
      simp [List.find?_cons, h1]
    rw [hsingle, Option.or_none]

/-- C7: when a client joins a room whose persisted record holds K
shapes, the send list of `handleJoin` is exactly one `init_sync` to the
joining connection — whose payload carries the persisted shape snapshot
(all K entries, `addUser` not touching `shapes`), the room's version,
and the user data of every other live connection of the room (in
connection order, the joiner excluded) — followed by a `join` broadcast
to every other connection of the room and to no one else; in particular
the joiner receives only the `init_sync` and every already-connected
member receives the `join`. -/
theorem handleJoin_initSync_and_broadcast (st : WSState) (ws : Nat)
    (roomId userId : String) (u : UserData) (rec : RoomRecord) (K : Nat)
    (hrec : st.db.findRoom roomId = some rec)
    (hK : rec.shapes.length = K) :
    (st.handleJoin ws roomId userId u).2 =
      (ws, ServerMsg.initSync
        (((st.roomConns roomId).filter (· ≠ ws)).filterMap
          (fun c => (st.getClient c).map (·.user)))
        rec.shapes rec.version)
        :: ((st.roomConns roomId).filter (· ≠ ws)).map
            (fun c => (c, ServerMsg.joinBroadcast userId u)) ∧
    rec.shapes.length = K ∧
    ((st.handleJoin ws roomId userId u).2.filter (fun p => p.1 = ws)) =
      [(ws, ServerMsg.initSync
        (((st.roomConns roomId).filter (· ≠ ws)).filterMap
          (fun c => (st.getClient c).map (·.user)))
        rec.shapes rec.version)] ∧
    (∀ c ∈ st.roomConns roomId, c ≠ ws →
      (c, ServerMsg.joinBroadcast userId u) ∈ (st.handleJoin ws roomId userId u).2) := by
  have hsends : (st.handleJoin ws roomId userId u).2 =
      (ws, ServerMsg.initSync
        ((((st.roomConns roomId).filter (· ≠ ws)).filterMap fun c =>
          (WSState.getClient
            ⟨WSState.setClient st.clients ws ⟨userId, roomId, u⟩,
             WSState.addConn st.rooms roomId ws,
             (st.db.addUser roomId ⟨userId, u.name, u.color⟩)⟩ c).map (·.user)))
        rec.shapes rec.version)
        :: ((st.roomConns roomId).filter (· ≠ ws)).map
            (fun c => (c, ServerMsg.joinBroadcast userId u)) := by
    simp only [WSState.handleJoin,
      getRoom_addUser hrec ⟨userId, u.name, u.color⟩, WSState.roomConns]
    rw [addConn_filter_ne]
  have husers : ((((st.roomConns roomId).filter (· ≠ ws)).filterMap fun c =>
      (WSState.getClient
        ⟨WSState.setClient st.clients ws ⟨userId, roomId, u⟩,
         WSState.addConn st.rooms roomId ws,
         (st.db.addUser roomId ⟨userId, u.name, u.color⟩)⟩ c).map (·.user))) =
      (((st.roomConns roomId).filter (· ≠ ws)).filterMap
        (fun c => (st.getClient c).map (·.user))) := by
    apply List.filterMap_congr
    intro c hc
    have hcne : c ≠ ws := by simpa using (List.mem_filter.mp hc).2
    simp only [WSState.getClient]
    rw [find?_setClient_ne st.clients ws c ⟨userId, roomId, u⟩ hcne]
  rw [husers] at hsends
  refine ⟨hsends, hK, ?_, ?_⟩
  · rw [hsends]
    have hnil : (((st.roomConns roomId).filter (· ≠ ws)).map
        (fun c => (c, ServerMsg.joinBroadcast userId u))).filter
          (fun p => p.1 = ws) = [] := by
      rw [List.filter_eq_nil_iff]
      intro p hp
      rcases List.mem_map.mp hp with ⟨c, hc, rfl⟩
      have hcne : c ≠ ws := by simpa using (List.mem_filter.mp hc).2
      simpa using hcne
    simp [List.filter_cons, hnil]
    intro a b x hx hxne hxa hb
    subst hxa
    exact hxne
  · intro c hc hne
    rw [hsends]
    refine List.mem_cons_of_mem _ ?_
    exact List.mem_map.mpr ⟨c, List.mem_filter.mpr ⟨hc, by simpa using hne⟩, rfl⟩

/-- C9: when every database write of a relayed command throws (the
`dbFail` oracle), `handleCommand` takes the `catch` branch — it reports
the logged error, leaves the persisted database untouched (so every
later `init_sync` snapshot, which serves the persisted `shapes`, cannot
contain the mutation) — and still broadcasts the command envelope to
every connection of the room, sender included. -/
theorem handleCommand_dbFail_still_broadcasts (st : WSState)
    (roomId userId : String) (cmd : WireCmd) :
    (st.handleCommand true roomId userId (some cmd)).2.2 = true ∧
    (st.handleCommand true roomId userId (some cmd)).1.db = st.db ∧
    (st.handleCommand true roomId userId (some cmd)).2.1 =
      (st.roomConns roomId).map (fun c => (c, ServerMsg.commandMsg userId cmd)) ∧
    (∀ c ∈ st.roomConns roomId,
      (c, ServerMsg.commandMsg userId cmd) ∈
        (st.handleCommand true roomId userId (some cmd)).2.1) := by
  refine ⟨rfl, rfl, rfl, ?_⟩
  intro c hc
  exact List.mem_map.mpr ⟨c, hc, rfl⟩

/-- C7 witness: the join theorem applied to `sampleWSState` — connection
2 joins `room1` (K = 2 persisted shapes) as user `u2`; the `init_sync`
users payload evaluates to exactly the one other connected user,
`Alice`. -/
theorem handleJoin_witness :
    ((sampleWSState.handleJoin 2 "room1" "u2" ⟨"Bob", "#b00"⟩).2 =
      (2, ServerMsg.initSync
        (((sampleWSState.roomConns "room1").filter (· ≠ 2)).filterMap
          (fun c => (sampleWSState.getClient c).map (·.user)))
        sampleRoomRecord.shapes sampleRoomRecord.version)
        :: ((sampleWSState.roomConns "room1").filter (· ≠ 2)).map
            (fun c => (c, ServerMsg.joinBroadcast "u2" ⟨"Bob", "#b00"⟩)) ∧
      sampleRoomRecord.shapes.length = 2 ∧
      ((sampleWSState.handleJoin 2 "room1" "u2" ⟨"Bob", "#b00"⟩).2.filter
          (fun p => p.1 = 2)) =
        [(2, ServerMsg.initSync
          (((sampleWSState.roomConns "room1").filter (· ≠ 2)).filterMap
            (fun c => (sampleWSState.getClient c).map (·.user)))
          sampleRoomRecord.shapes sampleRoomRecord.version)] ∧
      (∀ c ∈ sampleWSState.roomConns "room1", c ≠ 2 →
        (c, ServerMsg.joinBroadcast "u2" ⟨"Bob", "#b00"⟩) ∈
          (sampleWSState.handleJoin 2 "room1" "u2" ⟨"Bob", "#b00"⟩).2)) ∧
    (((sampleWSState.roomConns "room1").filter (· ≠ 2)).filterMap
      (fun c => (sampleWSState.getClient c).map (·.user))) =
      [⟨"Alice", "#0f0"⟩] :=
  ⟨handleJoin_initSync_and_broadcast sampleWSState 2 "room1" "u2" ⟨"Bob", "#b00"⟩
    sampleRoomRecord 2 (by decide) (by decide), by decide⟩
